import Mathlib

/-!
Verification of the Gearbox revenue calculator core
(`src/utils/pool-utils.js` and `src/gearbox-revenue-calculator.js`).

Shallow embedding conventions:
* JavaScript `BigInt` values are modelled as `Int`; event argument fields
  decoded from `uint256` log topics are modelled as `Nat` (they are always
  non-negative on chain) and cast to `Int` where the code does arithmetic.
* JavaScript `BigInt` division truncates toward zero, so it is modelled by
  `Int.tdiv` (never by `/`, which is Euclidean division on `Int`).
* Addresses are modelled as `Nat` in already-normalised (lower-cased) form;
  the zero address `0x0000...0000` is modelled as `0`.
* Optional (`undefined`-able) fields are modelled as `Option`; the
  JavaScript `x ?? d` default reads become `Option.getD`.
* Transaction hashes are modelled as `Nat` (`Option Nat` when absent).
-/

namespace Gearbox

/-- `SHARE_PRICE_SCALE = 1000000000000n` from `pool-utils.js`. -/
def SHARE_PRICE_SCALE : Int := 1000000000000

/-- A Deposit/Withdraw pool log event as consumed by
`derivePoolSnapshotsFromEvents`: `type` is the tag attached during fetching
(`"Deposit"` or `"Withdraw"`; other strings model foreign log entries),
`args` fields are optional exactly as the code guards them with `??`. -/
structure PoolEvent where
  type : String
  blockNumber : Nat
  logIndex : Option Nat
  amount : Option Nat
  assets : Option Nat
  shares : Option Nat
  owner : Option Nat
  txHash : Option Nat
deriving DecidableEq, Repr

/-- `BigInt(event.args?.amount ?? event.args?.assets ?? 0n)`. -/
def PoolEvent.amountOf (e : PoolEvent) : Nat :=
  match e.amount with
  | some a => a
  | none => e.assets.getD 0

/-- `BigInt(event.args?.shares ?? 0n)`. -/
def PoolEvent.sharesOf (e : PoolEvent) : Nat :=
  e.shares.getD 0

/-- The `(blockNumber, logIndex)` ordering key; a missing `logIndex`
defaults to `0` as in `sortEventsByBlockAndIndex`. -/
def PoolEvent.key (e : PoolEvent) : Nat × Nat :=
  (e.blockNumber, e.logIndex.getD 0)

/-- The comparator of `sortEventsByBlockAndIndex` as a relation:
sort by block number, ties broken by log index. -/
def eventKeyLe (a b : PoolEvent) : Prop :=
  a.blockNumber < b.blockNumber ∨
    (a.blockNumber = b.blockNumber ∧ a.logIndex.getD 0 ≤ b.logIndex.getD 0)

instance : DecidableRel eventKeyLe := fun a b =>
  inferInstanceAs (Decidable (a.blockNumber < b.blockNumber ∨
    (a.blockNumber = b.blockNumber ∧ a.logIndex.getD 0 ≤ b.logIndex.getD 0)))

instance : IsTotal PoolEvent eventKeyLe := by
  constructor
  intro a b
  unfold eventKeyLe
  omega

instance : IsTrans PoolEvent eventKeyLe := by
  constructor
  intro a b c hab hbc
  unfold eventKeyLe at hab hbc ⊢
  omega

/-- `sortEventsByBlockAndIndex` from `pool-utils.js`: a stable sort of the
events by `(blockNumber, logIndex)` (JavaScript `Array.prototype.sort` is
stable, as is insertion sort). -/
def sortEventsByBlockAndIndex (events : List PoolEvent) : List PoolEvent :=
  List.insertionSort eventKeyLe events

/-- Running replay state of `derivePoolSnapshotsFromEvents`
(`totalSupply`, `expectedLiquidity`, `sharePrice`). -/
structure PoolState where
  totalSupply : Int
  expectedLiquidity : Int
  sharePrice : Int
deriving DecidableEq, Repr

/-- One element of the `snapshots` array built by
`derivePoolSnapshotsFromEvents`. -/
structure PoolSnapshot where
  blockNumber : Nat
  totalSupply : Int
  expectedLiquidity : Int
  sharePrice : Int
  eventType : String
deriving DecidableEq, Repr

/-- `const priceFromEvent = shares > 0n ? (amount * SHARE_PRICE_SCALE) / shares : sharePrice;`
(BigInt division truncates, hence `Int.tdiv`). -/
def priceFromEvent (st : PoolState) (e : PoolEvent) : Int :=
  if 0 < ((e.sharesOf : Nat) : Int) then
    Int.tdiv (((e.amountOf : Nat) : Int) * SHARE_PRICE_SCALE) ((e.sharesOf : Nat) : Int)
  else st.sharePrice

/-- The `totalSupply` update of the loop body: `totalSupply += shares` on a
Deposit, `totalSupply = totalSupply > shares ? totalSupply - shares : 0n` on
a Withdraw, unchanged for any other event type. -/
def nextTotalSupply (st : PoolState) (e : PoolEvent) : Int :=
  if e.type = "Deposit" then st.totalSupply + ((e.sharesOf : Nat) : Int)
  else if e.type = "Withdraw" then
    (if ((e.sharesOf : Nat) : Int) < st.totalSupply then
      st.totalSupply - ((e.sharesOf : Nat) : Int)
    else 0)
  else st.totalSupply

/-- The `sharePrice` update of the loop body: inside both the Deposit and the
Withdraw branch the code runs
`if (shares > 0n && priceFromEvent > 0n) sharePrice = priceFromEvent;`
and any other event type leaves `sharePrice` untouched. -/
def nextSharePrice (st : PoolState) (e : PoolEvent) : Int :=
  if e.type = "Deposit" ∨ e.type = "Withdraw" then
    (if 0 < ((e.sharesOf : Nat) : Int) ∧ 0 < priceFromEvent st e then
      priceFromEvent st e
    else st.sharePrice)
  else st.sharePrice

/-- `expectedLiquidity = sharePrice > 0n && totalSupply > 0n ? (sharePrice * totalSupply) / SHARE_PRICE_SCALE : 0n;`. -/
def expectedLiquidityOf (sharePrice totalSupply : Int) : Int :=
  if 0 < sharePrice ∧ 0 < totalSupply then
    Int.tdiv (sharePrice * totalSupply) SHARE_PRICE_SCALE
  else 0

/-- The body of the `for (const event of sortedEvents)` loop of
`derivePoolSnapshotsFromEvents`: update `totalSupply` (clamped at zero for
withdrawals), update `sharePrice` only on non-zero shares with strictly
positive derived price, then recompute `expectedLiquidity`. -/
def applyPoolEvent (st : PoolState) (e : PoolEvent) : PoolState :=
  ⟨nextTotalSupply st e,
   expectedLiquidityOf (nextSharePrice st e) (nextTotalSupply st e),
   nextSharePrice st e⟩

/-- The snapshot pushed after processing event `e`, given the post-event
state `st`. -/
def snapOf (e : PoolEvent) (st : PoolState) : PoolSnapshot :=
  ⟨e.blockNumber, st.totalSupply, st.expectedLiquidity, st.sharePrice, e.type⟩

/-- The fold of `derivePoolSnapshotsFromEvents` over an already-sorted
event list: returns the snapshot list and the final state. -/
def processPoolEvents (st : PoolState) : List PoolEvent → List PoolSnapshot × PoolState
  | [] => ([], st)
  | e :: rest =>
    let st2 := applyPoolEvent st e
    let tail := processPoolEvents st2 rest
    (snapOf e st2 :: tail.1, tail.2)

/-- The initial replay state: `totalSupply = 0n`, `expectedLiquidity = 0n`,
`sharePrice = 0n`. -/
def initialPoolState : PoolState := ⟨0, 0, 0⟩

/-- `derivePoolSnapshotsFromEvents` from `pool-utils.js`:
sort the events by `(blockNumber, logIndex)` and fold; `.1` is the
`snapshots` array, `.2` the `finalState`. -/
def derivePoolSnapshotsFromEvents (events : List PoolEvent) :
    List PoolSnapshot × PoolState :=
  processPoolEvents initialPoolState (sortEventsByBlockAndIndex events)

/-- The replay-state triple stored inside a snapshot. -/
def stateOfSnap (s : PoolSnapshot) : PoolState :=
  ⟨s.totalSupply, s.expectedLiquidity, s.sharePrice⟩

/-- A state is consistent when its `expectedLiquidity` is the value the loop
recomputes from its `sharePrice` and `totalSupply`. -/
def elConsistent (st : PoolState) : Prop :=
  st.expectedLiquidity = expectedLiquidityOf st.sharePrice st.totalSupply

theorem nextTotalSupply_nonneg (st : PoolState) (e : PoolEvent)
    (h : 0 ≤ st.totalSupply) : 0 ≤ nextTotalSupply st e := by
  unfold nextTotalSupply
  have hs : (0 : Int) ≤ ((e.sharesOf : Nat) : Int) := Int.ofNat_nonneg _
  split_ifs <;> omega

theorem applyPoolEvent_elConsistent (st : PoolState) (e : PoolEvent) :
    elConsistent (applyPoolEvent st e) := rfl

theorem applyPoolEvent_supply_nonneg (st : PoolState) (e : PoolEvent)
    (h : 0 ≤ st.totalSupply) : 0 ≤ (applyPoolEvent st e).totalSupply :=
  nextTotalSupply_nonneg st e h

theorem applyPoolEvent_zero_shares (st : PoolState) (e : PoolEvent)
    (h0 : 0 ≤ st.totalSupply) (hc : elConsistent st) (hs : e.sharesOf = 0) :
    applyPoolEvent st e = st := by
  have hp : priceFromEvent st e = st.sharePrice := by
    unfold priceFromEvent
    rw [hs]
    simp
  have ht : nextTotalSupply st e = st.totalSupply := by
    unfold nextTotalSupply
    rw [hs]
    split_ifs <;> simp_all <;> omega
  have hq : nextSharePrice st e = st.sharePrice := by
    unfold nextSharePrice
    rw [hs]
    simp
  unfold applyPoolEvent
  rw [ht, hq, ← hc]

theorem applyPoolEvent_other_type (st : PoolState) (e : PoolEvent)
    (hc : elConsistent st) (h1 : e.type ≠ "Deposit") (h2 : e.type ≠ "Withdraw") :
    applyPoolEvent st e = st := by
  have ht : nextTotalSupply st e = st.totalSupply := by
    unfold nextTotalSupply
    simp [h1, h2]
  have hq : nextSharePrice st e = st.sharePrice := by
    unfold nextSharePrice
    simp [h1, h2]
  unfold applyPoolEvent
  rw [ht, hq, ← hc]

theorem applyPoolEvent_price_change (st : PoolState) (e : PoolEvent)
    (h : (applyPoolEvent st e).sharePrice ≠ st.sharePrice) :
    0 < ((e.sharesOf : Nat) : Int) ∧
      0 < Int.tdiv (((e.amountOf : Nat) : Int) * SHARE_PRICE_SCALE) ((e.sharesOf : Nat) : Int) := by
  have hsp : (applyPoolEvent st e).sharePrice = nextSharePrice st e := rfl
  rw [hsp] at h
  unfold nextSharePrice at h
  split_ifs at h with h1 h2
  · refine ⟨h2.1, ?_⟩
    have hp : priceFromEvent st e =
        Int.tdiv (((e.amountOf : Nat) : Int) * SHARE_PRICE_SCALE) ((e.sharesOf : Nat) : Int) := by
      unfold priceFromEvent
      rw [if_pos h2.1]
    rw [← hp]
    exact h2.2
  · exact absurd rfl h
  · exact absurd rfl h

theorem processPoolEvents_length (st : PoolState) (l : List PoolEvent) :
    (processPoolEvents st l).1.length = l.length := by
  induction l generalizing st with
  | nil => rfl
  | cons e rest ih =>
    simp only [processPoolEvents, List.length_cons]
    rw [ih]

theorem processPoolEvents_map_block (st : PoolState) (l : List PoolEvent) :
    (processPoolEvents st l).1.map (fun s => s.blockNumber) =
      l.map (fun e => e.blockNumber) := by
  induction l generalizing st with
  | nil => rfl
  | cons e rest ih =>
    simp only [processPoolEvents, List.map_cons]
    rw [ih]
    rfl

theorem processPoolEvents_supply_nonneg (st : PoolState) (l : List PoolEvent)
    (h : 0 ≤ st.totalSupply) :
    (∀ s ∈ (processPoolEvents st l).1, 0 ≤ s.totalSupply) ∧
      0 ≤ (processPoolEvents st l).2.totalSupply := by
  induction l generalizing st with
  | nil => exact ⟨fun s hs => absurd hs (List.not_mem_nil s), h⟩
  | cons e rest ih =>
    have h2 : 0 ≤ (applyPoolEvent st e).totalSupply :=
      applyPoolEvent_supply_nonneg st e h
    obtain ⟨ihl, ihf⟩ := ih (applyPoolEvent st e) h2
    constructor
    · intro s hs
      simp only [processPoolEvents, List.mem_cons] at hs
      rcases hs with hs | hs
      · rw [hs]
        exact h2
      · exact ihl s hs
    · exact ihf

theorem processPoolEvents_consistent (st : PoolState) (l : List PoolEvent) :
    ∀ s ∈ (processPoolEvents st l).1, elConsistent (stateOfSnap s) := by
  induction l generalizing st with
  | nil => exact fun s hs => absurd hs (List.not_mem_nil s)
  | cons e rest ih =>
    intro s hs
    simp only [processPoolEvents, List.mem_cons] at hs
    rcases hs with hs | hs
    · rw [hs]
      exact applyPoolEvent_elConsistent st e
    · exact ih (applyPoolEvent st e) s hs

theorem processPoolEvents_get_zero (st : PoolState) (l : List PoolEvent)
    (h : 0 < l.length) :
    (processPoolEvents st l).1.get ⟨0, by rw [processPoolEvents_length]; exact h⟩ =
      snapOf (l.get ⟨0, h⟩) (applyPoolEvent st (l.get ⟨0, h⟩)) := by
  cases l with
  | nil => exact absurd h (by simp)
  | cons e rest => rfl

theorem processPoolEvents_get_succ (st : PoolState) (l : List PoolEvent)
    (i : Nat) (h : i + 1 < l.length) :
    (processPoolEvents st l).1.get ⟨i + 1, by rw [processPoolEvents_length]; exact h⟩ =
      snapOf (l.get ⟨i + 1, h⟩)
        (applyPoolEvent
          (stateOfSnap ((processPoolEvents st l).1.get
            ⟨i, by rw [processPoolEvents_length]; omega⟩))
          (l.get ⟨i + 1, h⟩)) := by
  induction l generalizing st i with
  | nil => exact absurd h (by simp)
  | cons e rest ih =>
    cases i with
    | zero =>
      have hr : 0 < rest.length := by
        simp only [List.length_cons] at h
        omega
      have hz := processPoolEvents_get_zero (applyPoolEvent st e) rest hr
      have hstate : stateOfSnap (snapOf e (applyPoolEvent st e)) = applyPoolEvent st e := rfl
      exact hz
    | succ j =>
      have hr : j + 1 < rest.length := by
        simp only [List.length_cons] at h
        omega
      exact ih (applyPoolEvent st e) j hr

theorem derive_length (events : List PoolEvent) :
    (derivePoolSnapshotsFromEvents events).1.length =
      (sortEventsByBlockAndIndex events).length :=
  processPoolEvents_length _ _

theorem eventKeyLe_antisymm_key (a b : PoolEvent) (hab : eventKeyLe a b)
    (hba : eventKeyLe b a) : a.key = b.key := by
  unfold eventKeyLe at hab hba
  unfold PoolEvent.key
  have h1 : a.blockNumber = b.blockNumber := by omega
  have h2 : a.logIndex.getD 0 = b.logIndex.getD 0 := by omega
  rw [h1, h2]

/-- C1: for every input list of Deposit/Withdraw log events, every snapshot
produced by `derivePoolSnapshotsFromEvents` has a non-negative `totalSupply`
(a Withdraw whose shares exceed the running supply clamps the supply to zero),
and the `finalState` also carries a non-negative `totalSupply`. -/
theorem claim_C1 (events : List PoolEvent) :
    (∀ s ∈ (derivePoolSnapshotsFromEvents events).1, 0 ≤ s.totalSupply) ∧
      0 ≤ (derivePoolSnapshotsFromEvents events).2.totalSupply :=
  processPoolEvents_supply_nonneg initialPoolState _ le_rfl

/-- C1 witness: a Withdraw of 10 shares against an empty pool clamps the
supply to zero; the resulting snapshot has non-negative `totalSupply`. -/
theorem claim_C1_witness :
    0 ≤ (((derivePoolSnapshotsFromEvents
      [⟨"Withdraw", 5, none, none, some 10, some 10, none, none⟩]).1.get
        ⟨0, by decide⟩).totalSupply) :=
  (claim_C1 _).1 _ (List.get_mem _ _ _)

/-- C2: `derivePoolSnapshotsFromEvents` is order-insensitive up to the
`(blockNumber, logIndex)` key: permutations of a log set with pairwise
distinct keys yield identical snapshot sequences and final states. -/
theorem claim_C2 (l1 l2 : List PoolEvent) (hperm : l1.Perm l2)
    (hnd : (l1.map PoolEvent.key).Nodup) :
    derivePoolSnapshotsFromEvents l1 = derivePoolSnapshotsFromEvents l2 := by
  have hp1 : (sortEventsByBlockAndIndex l1).Perm l1 := List.perm_insertionSort _ _
  have hp2 : (sortEventsByBlockAndIndex l2).Perm l2 := List.perm_insertionSort _ _
  have hp : (sortEventsByBlockAndIndex l1).Perm (sortEventsByBlockAndIndex l2) :=
    hp1.trans (hperm.trans hp2.symm)
  have hs1 : List.Sorted eventKeyLe (sortEventsByBlockAndIndex l1) :=
    List.sorted_insertionSort _ _
  have hs2 : List.Sorted eventKeyLe (sortEventsByBlockAndIndex l2) :=
    List.sorted_insertionSort _ _
  have hnd1 : ((sortEventsByBlockAndIndex l1).map PoolEvent.key).Nodup :=
    ((hp1.map PoolEvent.key).nodup_iff).mpr hnd
  have hnd2 : ((sortEventsByBlockAndIndex l2).map PoolEvent.key).Nodup :=
    ((hp2.map PoolEvent.key).nodup_iff).mpr (((hperm.map PoolEvent.key).nodup_iff).mp hnd)
  have hk1 : List.Pairwise (fun a b : PoolEvent => a.key ≠ b.key)
      (sortEventsByBlockAndIndex l1) := List.pairwise_map.mp hnd1
  have hk2 : List.Pairwise (fun a b : PoolEvent => a.key ≠ b.key)
      (sortEventsByBlockAndIndex l2) := List.pairwise_map.mp hnd2
  haveI : IsAntisymm PoolEvent (fun a b => eventKeyLe a b ∧ a.key ≠ b.key) :=
    ⟨fun a b hab hba => absurd (eventKeyLe_antisymm_key a b hab.1 hba.1) hab.2⟩
  have heq : sortEventsByBlockAndIndex l1 = sortEventsByBlockAndIndex l2 :=
    List.eq_of_perm_of_sorted (r := fun a b => eventKeyLe a b ∧ a.key ≠ b.key)
      hp (hs1.and hk1) (hs2.and hk2)
  unfold derivePoolSnapshotsFromEvents
  rw [heq]

/-- C2 witness: swapping two events with distinct keys leaves the derived
snapshots and final state unchanged. -/
theorem claim_C2_witness :
    derivePoolSnapshotsFromEvents
        [⟨"Withdraw", 12, some 3, none, some 4, some 2, none, none⟩,
         ⟨"Deposit", 11, some 0, some 9, none, some 3, none, none⟩] =
      derivePoolSnapshotsFromEvents
        [⟨"Deposit", 11, some 0, some 9, none, some 3, none, none⟩,
         ⟨"Withdraw", 12, some 3, none, some 4, some 2, none, none⟩] :=
  claim_C2 _ _ (by decide) (by decide)

/-- The snapshot at position `i` of the derived snapshot array (default
value only used out of range). -/
def snapAt (events : List PoolEvent) (i : Nat) : PoolSnapshot :=
  (derivePoolSnapshotsFromEvents events).1.getD i ⟨0, 0, 0, 0, ""⟩

/-- The event at position `i` of the sorted replay order (default value
only used out of range). -/
def sortedEventAt (events : List PoolEvent) (i : Nat) : PoolEvent :=
  (sortEventsByBlockAndIndex events).getD i ⟨"", 0, none, none, none, none, none, none⟩

theorem snapAt_succ (events : List PoolEvent) (i : Nat)
    (h : i + 1 < (sortEventsByBlockAndIndex events).length) :
    snapAt events (i + 1) =
      snapOf (sortedEventAt events (i + 1))
        (applyPoolEvent (stateOfSnap (snapAt events i)) (sortedEventAt events (i + 1))) := by
  have hb1 : i + 1 < (derivePoolSnapshotsFromEvents events).1.length := by
    rw [derive_length]
    exact h
  have hb0 : i < (derivePoolSnapshotsFromEvents events).1.length := by omega
  have h0 : i < (sortEventsByBlockAndIndex events).length := by omega
  have e1 : snapAt events (i + 1) =
      (derivePoolSnapshotsFromEvents events).1.get ⟨i + 1, hb1⟩ :=
    List.getD_eq_get _ _ hb1
  have e0 : snapAt events i =
      (derivePoolSnapshotsFromEvents events).1.get ⟨i, hb0⟩ :=
    List.getD_eq_get _ _ hb0
  have e2 : sortedEventAt events (i + 1) =
      (sortEventsByBlockAndIndex events).get ⟨i + 1, h⟩ :=
    List.getD_eq_get _ _ h
  rw [e1, e0, e2]
  exact processPoolEvents_get_succ initialPoolState (sortEventsByBlockAndIndex events) i h

theorem snapAt_mem (events : List PoolEvent) (i : Nat)
    (h : i < (sortEventsByBlockAndIndex events).length) :
    snapAt events i ∈ (derivePoolSnapshotsFromEvents events).1 := by
  have hb : i < (derivePoolSnapshotsFromEvents events).1.length := by
    rw [derive_length]
    exact h
  rw [snapAt, List.getD_eq_get _ _ hb]
  exact List.get_mem _ _ _

/-- C3: in the sorted replay order, an event with zero shares leaves
`totalSupply`, `sharePrice` and `expectedLiquidity` exactly as in the
preceding snapshot, and the `sharePrice` of a snapshot differs from its
predecessor only when the event carries positive shares and a strictly
positive derived price `amount * SCALE / shares`. -/
theorem claim_C3 (events : List PoolEvent) (i : Nat)
    (h : i + 1 < (sortEventsByBlockAndIndex events).length) :
    ((sortedEventAt events (i + 1)).sharesOf = 0 →
      (snapAt events (i + 1)).totalSupply = (snapAt events i).totalSupply ∧
      (snapAt events (i + 1)).sharePrice = (snapAt events i).sharePrice ∧
      (snapAt events (i + 1)).expectedLiquidity = (snapAt events i).expectedLiquidity) ∧
    ((snapAt events (i + 1)).sharePrice ≠ (snapAt events i).sharePrice →
      0 < (((sortedEventAt events (i + 1)).sharesOf : Nat) : Int) ∧
        0 < Int.tdiv
          ((((sortedEventAt events (i + 1)).amountOf : Nat) : Int) * SHARE_PRICE_SCALE)
          (((sortedEventAt events (i + 1)).sharesOf : Nat) : Int)) := by
  have hmem := snapAt_mem events i (by omega)
  have hcons := processPoolEvents_consistent initialPoolState
    (sortEventsByBlockAndIndex events) _ hmem
  have hnn := (processPoolEvents_supply_nonneg initialPoolState
    (sortEventsByBlockAndIndex events) le_rfl).1 _ hmem
  have hkey := snapAt_succ events i h
  constructor
  · intro hs
    have happ := applyPoolEvent_zero_shares
      (stateOfSnap (snapAt events i)) (sortedEventAt events (i + 1)) hnn hcons hs
    rw [hkey, happ]
    exact ⟨rfl, rfl, rfl⟩
  · intro hne
    rw [hkey] at hne
    exact applyPoolEvent_price_change (stateOfSnap (snapAt events i))
      (sortedEventAt events (i + 1)) hne

/-- C3 witness: a zero-share Deposit following a funding Deposit leaves the
supply, price and liquidity of the previous snapshot untouched. -/
theorem claim_C3_witness :
    (snapAt
        [⟨"Deposit", 11, some 0, some 9000000000000, none, some 3, none, none⟩,
         ⟨"Deposit", 12, some 0, some 5, none, some 0, none, none⟩] 1).totalSupply =
      (snapAt
        [⟨"Deposit", 11, some 0, some 9000000000000, none, some 3, none, none⟩,
         ⟨"Deposit", 12, some 0, some 5, none, some 0, none, none⟩] 0).totalSupply :=
  ((claim_C3
    [⟨"Deposit", 11, some 0, some 9000000000000, none, some 3, none, none⟩,
     ⟨"Deposit", 12, some 0, some 5, none, some 0, none, none⟩] 0 (by decide)).1
    (by decide)).1

theorem snapAt_zero (events : List PoolEvent)
    (h : 0 < (sortEventsByBlockAndIndex events).length) :
    snapAt events 0 =
      snapOf (sortedEventAt events 0)
        (applyPoolEvent initialPoolState (sortedEventAt events 0)) := by
  have hb : 0 < (derivePoolSnapshotsFromEvents events).1.length := by
    rw [derive_length]
    exact h
  have e1 : snapAt events 0 = (derivePoolSnapshotsFromEvents events).1.get ⟨0, hb⟩ :=
    List.getD_eq_get _ _ hb
  have e2 : sortedEventAt events 0 = (sortEventsByBlockAndIndex events).get ⟨0, h⟩ :=
    List.getD_eq_get _ _ h
  rw [e1, e2]
  exact processPoolEvents_get_zero initialPoolState (sortEventsByBlockAndIndex events) h

/-- C8 counterexample: two deposits in the same block produce two
consecutive snapshots with equal block numbers, so the snapshot sequence of
`derivePoolSnapshotsFromEvents` is not strictly block-ordered. -/
theorem claim_C8_counterexample :
    ¬ List.Chain' (fun a b : PoolSnapshot => a.blockNumber < b.blockNumber)
      (derivePoolSnapshotsFromEvents
        [⟨"Deposit", 100, some 0, some 10, none, some 5, none, none⟩,
         ⟨"Deposit", 100, some 1, some 10, none, some 5, none, none⟩]).1 := by
  have hlist : (derivePoolSnapshotsFromEvents
      [⟨"Deposit", 100, some 0, some 10, none, some 5, none, none⟩,
       ⟨"Deposit", 100, some 1, some 10, none, some 5, none, none⟩]).1 =
      [⟨100, 5, 10, 2000000000000, "Deposit"⟩,
       ⟨100, 10, 20, 2000000000000, "Deposit"⟩] := by decide
  rw [hlist]
  simp [List.chain'_cons]

/-- C8 (amended): the snapshot sequence produced by
`derivePoolSnapshotsFromEvents` is block-ordered non-strictly: every
consecutive pair of snapshots has non-decreasing block numbers (strictness
fails when several events share one block). -/
theorem claim_C8_amended (events : List PoolEvent) :
    List.Chain' (fun a b : PoolSnapshot => a.blockNumber ≤ b.blockNumber)
      (derivePoolSnapshotsFromEvents events).1 := by
  have hs : List.Sorted eventKeyLe (sortEventsByBlockAndIndex events) :=
    List.sorted_insertionSort _ _
  have hb : List.Pairwise (fun a b : PoolEvent => a.blockNumber ≤ b.blockNumber)
      (sortEventsByBlockAndIndex events) := by
    refine hs.imp ?_
    intro a b hab
    unfold eventKeyLe at hab
    omega
  have hmap := processPoolEvents_map_block initialPoolState (sortEventsByBlockAndIndex events)
  have hmp : List.Pairwise (fun a b : Nat => a ≤ b)
      ((derivePoolSnapshotsFromEvents events).1.map (fun s => s.blockNumber)) := by
    have := List.pairwise_map.mpr hb
    rw [derivePoolSnapshotsFromEvents, hmap]
    exact this
  have hps : List.Pairwise (fun a b : PoolSnapshot => a.blockNumber ≤ b.blockNumber)
      (derivePoolSnapshotsFromEvents events).1 := List.pairwise_map.mp hmp
  exact hps.chain'

/-- C10: `derivePoolSnapshotsFromEvents` appends exactly one snapshot per
input event (output length equals input length), and an event whose type is
neither Deposit nor Withdraw produces a snapshot whose `totalSupply`,
`sharePrice` and `expectedLiquidity` are unchanged from the preceding state
(the preceding snapshot, or the all-zero initial state for the first
event). -/
theorem claim_C10 (events : List PoolEvent) :
    (derivePoolSnapshotsFromEvents events).1.length = events.length ∧
    (∀ i, i + 1 < (sortEventsByBlockAndIndex events).length →
      (sortedEventAt events (i + 1)).type ≠ "Deposit" →
      (sortedEventAt events (i + 1)).type ≠ "Withdraw" →
      (snapAt events (i + 1)).totalSupply = (snapAt events i).totalSupply ∧
      (snapAt events (i + 1)).sharePrice = (snapAt events i).sharePrice ∧
      (snapAt events (i + 1)).expectedLiquidity = (snapAt events i).expectedLiquidity) ∧
    (0 < (sortEventsByBlockAndIndex events).length →
      (sortedEventAt events 0).type ≠ "Deposit" →
      (sortedEventAt events 0).type ≠ "Withdraw" →
      (snapAt events 0).totalSupply = 0 ∧
      (snapAt events 0).sharePrice = 0 ∧
      (snapAt events 0).expectedLiquidity = 0) := by
  refine ⟨?_, ?_, ?_⟩
  · rw [derive_length]
    exact (List.perm_insertionSort eventKeyLe events).length_eq
  · intro i h h1 h2
    have hmem := snapAt_mem events i (by omega)
    have hcons := processPoolEvents_consistent initialPoolState
      (sortEventsByBlockAndIndex events) _ hmem
    have hkey := snapAt_succ events i h
    have happ := applyPoolEvent_other_type (stateOfSnap (snapAt events i))
      (sortedEventAt events (i + 1)) hcons h1 h2
    rw [hkey, happ]
    exact ⟨rfl, rfl, rfl⟩
  · intro h h1 h2
    have hinit : elConsistent initialPoolState := by
      unfold elConsistent
      decide
    have happ := applyPoolEvent_other_type initialPoolState
      (sortedEventAt events 0) hinit h1 h2
    rw [snapAt_zero events h, happ]
    exact ⟨rfl, rfl, rfl⟩

/-- C10 witness: a single foreign-typed log still yields one snapshot, with
the all-zero initial state carried through. -/
theorem claim_C10_witness :
    (derivePoolSnapshotsFromEvents
        [⟨"Transfer", 42, some 0, some 9, none, some 3, none, none⟩]).1.length = 1 ∧
      (snapAt [⟨"Transfer", 42, some 0, some 9, none, some 3, none, none⟩] 0).totalSupply = 0 :=
  ⟨(claim_C10 [⟨"Transfer", 42, some 0, some 9, none, some 3, none, none⟩]).1,
   ((claim_C10 [⟨"Transfer", 42, some 0, some 9, none, some 3, none, none⟩]).2.2
     (by decide) (by decide) (by decide)).1⟩

/-!
Interval accounting of `calculateGearboxRevenue` (gearbox-revenue-calculator.js,
`for (let i = 0; i < anchorSnapshots.length - 1; i++)`): accumulators are the
triple `(totalRevenue, weightedTVLSum, totalTimeSum)`; block timestamps are
modelled as `Int` seconds.
-/

/-- One iteration of the interval loop for the pair `(current, next)` with
timestamps `tc`, `tn`: `continue` when `timeDelta <= 0`, otherwise add
`(current.totalSupply * sharePriceDiff) / SCALE` to `totalRevenue` (signed,
BigInt truncating division), `current.expectedLiquidity * timeDelta` to
`weightedTVLSum` and `timeDelta` to `totalTimeSum`. -/
def intervalStep (acc : Int × Int × Int) (c n : PoolSnapshot) (tc tn : Int) :
    Int × Int × Int :=
  let timeDelta := tn - tc
  if timeDelta ≤ 0 then acc
  else
    let sharePriceDiff := n.sharePrice - c.sharePrice
    let intervalRevenue := Int.tdiv (c.totalSupply * sharePriceDiff) SHARE_PRICE_SCALE
    (acc.1 + intervalRevenue, acc.2.1 + c.expectedLiquidity * timeDelta, acc.2.2 + timeDelta)

/-- The interval loop over the anchored snapshots zipped with their
timestamps, threading the accumulator left to right over adjacent pairs. -/
def accumulateIntervals (acc : Int × Int × Int) :
    List (PoolSnapshot × Int) → Int × Int × Int
  | (c, tc) :: (n, tn) :: rest =>
    accumulateIntervals (intervalStep acc c n tc tn) ((n, tn) :: rest)
  | _ => acc

/-- The whole interval-processing phase: start from zero accumulators and
fold over `anchorSnapshots` paired with `anchorTimestamps`. -/
def processIntervals (anchors : List PoolSnapshot) (stamps : List Int) :
    Int × Int × Int :=
  accumulateIntervals (0, 0, 0) (anchors.zip stamps)

/-- C4: with positive `timeDelta` the interval adds exactly
`current.totalSupply * (next.sharePrice - current.sharePrice) / SCALE` to
`totalRevenue` in exact signed BigInt arithmetic (plus the weighted-TVL and
time terms); with `timeDelta <= 0` the interval is skipped and contributes
to none of the three accumulators; and for a pure price decline the interval
revenue is the negative of the non-negative magnitude
`totalSupply * |diff| / SCALE`. -/
theorem claim_C4 (acc : Int × Int × Int) (c n : PoolSnapshot) (tc tn : Int)
    (rest : List (PoolSnapshot × Int)) :
    (0 < tn - tc →
      accumulateIntervals acc ((c, tc) :: (n, tn) :: rest) =
        accumulateIntervals
          (acc.1 + Int.tdiv (c.totalSupply * (n.sharePrice - c.sharePrice)) SHARE_PRICE_SCALE,
           acc.2.1 + c.expectedLiquidity * (tn - tc),
           acc.2.2 + (tn - tc)) ((n, tn) :: rest)) ∧
    (tn - tc ≤ 0 →
      accumulateIntervals acc ((c, tc) :: (n, tn) :: rest) =
        accumulateIntervals acc ((n, tn) :: rest)) ∧
    (0 ≤ c.totalSupply → n.sharePrice < c.sharePrice →
      Int.tdiv (c.totalSupply * (n.sharePrice - c.sharePrice)) SHARE_PRICE_SCALE =
        -(Int.tdiv (c.totalSupply * |n.sharePrice - c.sharePrice|) SHARE_PRICE_SCALE) ∧
      0 ≤ Int.tdiv (c.totalSupply * |n.sharePrice - c.sharePrice|) SHARE_PRICE_SCALE) := by
  refine ⟨?_, ?_, ?_⟩
  · intro hpos
    show accumulateIntervals (intervalStep acc c n tc tn) ((n, tn) :: rest) = _
    have hstep : intervalStep acc c n tc tn =
        (acc.1 + Int.tdiv (c.totalSupply * (n.sharePrice - c.sharePrice)) SHARE_PRICE_SCALE,
         acc.2.1 + c.expectedLiquidity * (tn - tc),
         acc.2.2 + (tn - tc)) := by
      unfold intervalStep
      rw [if_neg (by omega)]
    rw [hstep]
  · intro hneg
    show accumulateIntervals (intervalStep acc c n tc tn) ((n, tn) :: rest) = _
    have hstep : intervalStep acc c n tc tn = acc := by
      unfold intervalStep
      rw [if_pos hneg]
    rw [hstep]
  · intro hsup hdecl
    have habs : |n.sharePrice - c.sharePrice| = -(n.sharePrice - c.sharePrice) :=
      abs_of_neg (by omega)
    constructor
    · rw [habs]
      rw [show c.totalSupply * (n.sharePrice - c.sharePrice) =
        -(c.totalSupply * -(n.sharePrice - c.sharePrice)) by ring]
      exact Int.neg_tdiv _ _
    · refine Int.tdiv_nonneg (mul_nonneg hsup (abs_nonneg _)) (by norm_num [SHARE_PRICE_SCALE])

/-- C4 witness: a concrete positive-delta interval accumulates the exact
signed revenue, weighted TVL and time terms. -/
theorem claim_C4_witness :
    accumulateIntervals (0, 0, 0)
        [(⟨100, 1000, 1000, 1000000000000, "Deposit"⟩, (1000 : Int)),
         (⟨200, 600, 660, 1100000000000, "Withdraw"⟩, 2000)] =
      accumulateIntervals
        ((0 : Int) + Int.tdiv (1000 * (1100000000000 - 1000000000000)) SHARE_PRICE_SCALE,
         (0 : Int) + 1000 * (2000 - 1000),
         (0 : Int) + (2000 - 1000))
        [(⟨200, 600, 660, 1100000000000, "Withdraw"⟩, 2000)] :=
  (claim_C4 (0, 0, 0) ⟨100, 1000, 1000, 1000000000000, "Deposit"⟩
    ⟨200, 600, 660, 1100000000000, "Withdraw"⟩ 1000 2000 []).1 (by decide)

/-!
Anchor selection of `calculateGearboxRevenue`: `findNearestSnapshotIndex`
scans all snapshots keeping the first index whose absolute block distance to
the target strictly improves on the best so far; the anchors are
`snapshots.slice(startIdx, endIdx + 1)` after swapping a start index that
exceeds the end index, and fewer than 2 anchors throws.
-/

/-- Placeholder snapshot used only for out-of-range indexing. -/
def defaultSnap : PoolSnapshot := ⟨0, 0, 0, 0, ""⟩

/-- `Math.abs(Number(snapshots[i].blockNumber) - targetBlock)`. -/
def blockDist (snaps : List PoolSnapshot) (target : Nat) (i : Nat) : Int :=
  |(((snaps.getD i defaultSnap).blockNumber : Int)) - (target : Int)|

/-- `findNearestSnapshotIndex` from `calculateGearboxRevenue`: first index
minimising the absolute block distance to `targetBlock` (the scan keeps the
incumbent on ties, so the first minimiser wins; starting the fold at index 0
with best 0 is the same as starting the loop at index 1). -/
def findNearestSnapshotIndex (snaps : List PoolSnapshot) (target : Nat) : Nat :=
  (List.range snaps.length).foldl
    (fun best i => if blockDist snaps target i < blockDist snaps target best then i else best) 0

/-- `startIdx` after the swap: `if (startIdx > endIdx) { swap }`. -/
def anchorStartIdx (snaps : List PoolSnapshot) (fromBlock toBlock : Nat) : Nat :=
  if findNearestSnapshotIndex snaps toBlock < findNearestSnapshotIndex snaps fromBlock then
    findNearestSnapshotIndex snaps toBlock
  else findNearestSnapshotIndex snaps fromBlock

/-- `endIdx` after the swap. -/
def anchorEndIdx (snaps : List PoolSnapshot) (fromBlock toBlock : Nat) : Nat :=
  if findNearestSnapshotIndex snaps toBlock < findNearestSnapshotIndex snaps fromBlock then
    findNearestSnapshotIndex snaps fromBlock
  else findNearestSnapshotIndex snaps toBlock

/-- `anchorSnapshots = snapshots.slice(startIdx, endIdx + 1)`
(`slice(a, b)` is drop `a` then take `b - a`). -/
def anchorsSlice (snaps : List PoolSnapshot) (fromBlock toBlock : Nat) :
    List PoolSnapshot :=
  (snaps.drop (anchorStartIdx snaps fromBlock toBlock)).take
    (anchorEndIdx snaps fromBlock toBlock + 1 - anchorStartIdx snaps fromBlock toBlock)

/-- The anchoring step: guard for an empty snapshot list (the earlier
`snapshots.length === 0` throw), pick nearest indices to both ends, swap if
inverted, slice inclusively, and fail when fewer than 2 anchors result. -/
def selectAnchorSnapshots (snaps : List PoolSnapshot) (fromBlock toBlock : Nat) :
    Except String (List PoolSnapshot) :=
  if snaps.length = 0 then
    Except.error "No deposit/withdraw events found to build pool state."
  else if (anchorsSlice snaps fromBlock toBlock).length < 2 then
    Except.error "Not enough events to compute revenue within the requested period."
  else Except.ok (anchorsSlice snaps fromBlock toBlock)

theorem foldl_argmin_spec (f : Nat → Int) (l : List Nat) (b0 : Nat) :
    (l.foldl (fun best i => if f i < f best then i else best) b0 = b0 ∨
      l.foldl (fun best i => if f i < f best then i else best) b0 ∈ l) ∧
    f (l.foldl (fun best i => if f i < f best then i else best) b0) ≤ f b0 ∧
    (∀ i ∈ l, f (l.foldl (fun best i => if f i < f best then i else best) b0) ≤ f i) := by
  induction l generalizing b0 with
  | nil => simp
  | cons a t ih =>
    simp only [List.foldl_cons]
    by_cases h : f a < f b0
    · rw [if_pos h]
      obtain ⟨ihm, ihb, ihall⟩ := ih a
      refine ⟨?_, ?_, ?_⟩
      · rcases ihm with h1 | h1
        · exact Or.inr (by rw [h1]; exact List.mem_cons_self a t)
        · exact Or.inr (List.mem_cons_of_mem a h1)
      · exact le_trans ihb (le_of_lt h)
      · intro i hi
        rcases List.mem_cons.mp hi with h1 | h1
        · rw [h1]
          exact ihb
        · exact ihall i h1
    · rw [if_neg h]
      obtain ⟨ihm, ihb, ihall⟩ := ih b0
      refine ⟨?_, ?_, ?_⟩
      · rcases ihm with h1 | h1
        · exact Or.inl h1
        · exact Or.inr (List.mem_cons_of_mem a h1)
      · exact ihb
      · intro i hi
        rcases List.mem_cons.mp hi with h1 | h1
        · rw [h1]
          exact le_trans ihb (le_of_not_lt h)
        · exact ihall i h1

theorem findNearest_lt (snaps : List PoolSnapshot) (target : Nat)
    (h : 0 < snaps.length) : findNearestSnapshotIndex snaps target < snaps.length := by
  obtain ⟨hm, -, -⟩ :=
    foldl_argmin_spec (blockDist snaps target) (List.range snaps.length) 0
  unfold findNearestSnapshotIndex
  rcases hm with h1 | h1
  · rw [h1]
    exact h
  · exact List.mem_range.mp h1

theorem findNearest_min (snaps : List PoolSnapshot) (target : Nat) (i : Nat)
    (hi : i < snaps.length) :
    blockDist snaps target (findNearestSnapshotIndex snaps target) ≤
      blockDist snaps target i := by
  obtain ⟨-, -, hall⟩ :=
    foldl_argmin_spec (blockDist snaps target) (List.range snaps.length) 0
  exact hall i (List.mem_range.mpr hi)

theorem findNearest_ne_of_distinct_in_range (snaps : List PoolSnapshot)
    (fromBlock toBlock p q : Nat) (hp : p < snaps.length) (hq : q < snaps.length)
    (hp1 : fromBlock ≤ (snaps.getD p defaultSnap).blockNumber)
    (hp2 : (snaps.getD p defaultSnap).blockNumber ≤ toBlock)
    (hq1 : fromBlock ≤ (snaps.getD q defaultSnap).blockNumber)
    (hq2 : (snaps.getD q defaultSnap).blockNumber ≤ toBlock)
    (hne : (snaps.getD p defaultSnap).blockNumber ≠ (snaps.getD q defaultSnap).blockNumber) :
    findNearestSnapshotIndex snaps fromBlock ≠ findNearestSnapshotIndex snaps toBlock := by
  intro heq
  have h1 := findNearest_min snaps fromBlock p hp
  have h3 := findNearest_min snaps fromBlock q hq
  have h2 := findNearest_min snaps toBlock q hq
  have h4 := findNearest_min snaps toBlock p hp
  rw [← heq] at h2 h4
  unfold blockDist at h1 h2 h3 h4
  have ea : |((snaps.getD p defaultSnap).blockNumber : Int) - (fromBlock : Int)| =
      ((snaps.getD p defaultSnap).blockNumber : Int) - (fromBlock : Int) :=
    abs_of_nonneg (by omega)
  have eb : |((snaps.getD q defaultSnap).blockNumber : Int) - (fromBlock : Int)| =
      ((snaps.getD q defaultSnap).blockNumber : Int) - (fromBlock : Int) :=
    abs_of_nonneg (by omega)
  have ec : |((snaps.getD q defaultSnap).blockNumber : Int) - (toBlock : Int)| =
      -(((snaps.getD q defaultSnap).blockNumber : Int) - (toBlock : Int)) :=
    abs_of_nonpos (by omega)
  have ed : |((snaps.getD p defaultSnap).blockNumber : Int) - (toBlock : Int)| =
      -(((snaps.getD p defaultSnap).blockNumber : Int) - (toBlock : Int)) :=
    abs_of_nonpos (by omega)
  rw [ea, abs_le] at h1
  rw [eb, abs_le] at h3
  rw [ec] at h2
  rw [ed] at h4
  rw [abs_le] at h2 h4
  omega

theorem anchorsSlice_length (snaps : List PoolSnapshot) (fromBlock toBlock : Nat) :
    (anchorsSlice snaps fromBlock toBlock).length =
      min (anchorEndIdx snaps fromBlock toBlock + 1 - anchorStartIdx snaps fromBlock toBlock)
        (snaps.length - anchorStartIdx snaps fromBlock toBlock) := by
  unfold anchorsSlice
  rw [List.length_take, List.length_drop]

/-- C6 (amended): whenever at least 2 snapshots at DISTINCT block numbers
lie within `[fromBlock, toBlock]`, the nearest-anchor selection returns at
least 2 anchor snapshots; and any successful selection always carries at
least 2 snapshots (fewer than 2 is an error, never an `ok` result). The
original claim fails when the only in-range snapshots share one block
number: both ends then resolve to the same index and the call fails. -/
theorem claim_C6_amended :
    (∀ (snaps : List PoolSnapshot) (fromBlock toBlock p q : Nat),
      p < snaps.length → q < snaps.length →
      fromBlock ≤ (snaps.getD p defaultSnap).blockNumber →
      (snaps.getD p defaultSnap).blockNumber ≤ toBlock →
      fromBlock ≤ (snaps.getD q defaultSnap).blockNumber →
      (snaps.getD q defaultSnap).blockNumber ≤ toBlock →
      (snaps.getD p defaultSnap).blockNumber ≠ (snaps.getD q defaultSnap).blockNumber →
      ∃ anchors, selectAnchorSnapshots snaps fromBlock toBlock = Except.ok anchors ∧
        2 ≤ anchors.length) ∧
    (∀ (snaps : List PoolSnapshot) (fromBlock toBlock : Nat)
      (anchors : List PoolSnapshot),
      selectAnchorSnapshots snaps fromBlock toBlock = Except.ok anchors →
      2 ≤ anchors.length) := by
  constructor
  · intro snaps fromBlock toBlock p q hp hq hp1 hp2 hq1 hq2 hne
    have hlen : 0 < snaps.length := by omega
    have hi := findNearest_lt snaps fromBlock hlen
    have hj := findNearest_lt snaps toBlock hlen
    have hij := findNearest_ne_of_distinct_in_range snaps fromBlock toBlock p q
      hp hq hp1 hp2 hq1 hq2 hne
    have hstart : anchorStartIdx snaps fromBlock toBlock <
        anchorEndIdx snaps fromBlock toBlock := by
      unfold anchorStartIdx anchorEndIdx
      split_ifs <;> omega
    have hend : anchorEndIdx snaps fromBlock toBlock < snaps.length := by
      unfold anchorEndIdx
      split_ifs <;> omega
    have hlen2 : 2 ≤ (anchorsSlice snaps fromBlock toBlock).length := by
      rw [anchorsSlice_length]
      omega
    refine ⟨anchorsSlice snaps fromBlock toBlock, ?_, hlen2⟩
    unfold selectAnchorSnapshots
    rw [if_neg (by omega), if_neg (by omega)]
  · intro snaps fromBlock toBlock anchors h
    unfold selectAnchorSnapshots at h
    split_ifs at h with h1 h2
    rw [Except.ok.injEq] at h
    rw [← h]
    omega

/-- C6 counterexample: two snapshots share block 50, both inside the
requested range `[0, 100]`, yet nearest-anchor selection resolves both ends
to index 0 and the computation fails, so "at least 2 snapshots in range"
does not guarantee 2 anchors. -/
theorem claim_C6_counterexample :
    2 ≤ List.countP (fun s => decide (s.blockNumber ≤ 100))
        [(⟨50, 1, 1, 1, "Deposit"⟩ : PoolSnapshot), ⟨50, 2, 2, 1, "Deposit"⟩] ∧
    selectAnchorSnapshots [⟨50, 1, 1, 1, "Deposit"⟩, ⟨50, 2, 2, 1, "Deposit"⟩] 0 100 =
      Except.error "Not enough events to compute revenue within the requested period." := by
  constructor
  · decide
  · rfl

/-- C6 witness: with two in-range snapshots at distinct blocks 10 and 90
the selection succeeds with at least 2 anchors. -/
theorem claim_C6_amended_witness :
    ∃ anchors,
      selectAnchorSnapshots [(⟨10, 1, 1, 1, "Deposit"⟩ : PoolSnapshot),
        ⟨90, 2, 2, 1, "Deposit"⟩] 0 100 = Except.ok anchors ∧ 2 ≤ anchors.length :=
  claim_C6_amended.1 [⟨10, 1, 1, 1, "Deposit"⟩, ⟨90, 2, 2, 1, "Deposit"⟩] 0 100 0 1
    (by decide) (by decide) (by decide) (by decide) (by decide) (by decide) (by decide)

/-!
Realized revenue (treasury mints) of `calculateGearboxRevenue`: ERC-20
Transfer logs are scanned for mints from the zero address to the treasury,
excluding transactions in which the treasury itself made a positive-asset
Deposit, and the surviving minted shares are valued at the final anchor's
share price.
-/

/-- An ERC-20 Transfer log; `fromAddr`/`toAddr` model the `args.from` and
`args.to` fields (the word `from` is reserved in Lean). A missing address
field (`?? ''` in the code) can never equal the zero address or the
treasury, which `Option` models directly. -/
structure TransferEvent where
  blockNumber : Nat
  logIndex : Option Nat
  fromAddr : Option Nat
  toAddr : Option Nat
  value : Option Nat
  txHash : Option Nat
deriving DecidableEq, Repr

/-- `BigInt(event.args?.assets ?? event.args?.amount ?? 0n)` as read in the
treasury-deposit scan (note: `assets` first here, unlike the replay loop). -/
def PoolEvent.assetsOf (e : PoolEvent) : Nat :=
  match e.assets with
  | some a => a
  | none => e.amount.getD 0

/-- The `treasuryDepositTxs` set: transaction hashes of Deposit events whose
`owner` is the treasury and whose assets are strictly positive (hashes only
collected when present). -/
def treasuryDepositTxs (treasury : Nat) (allEvents : List PoolEvent) : List Nat :=
  allEvents.filterMap (fun e =>
    if e.type = "Deposit" ∧ e.owner = some treasury ∧ 0 < e.assetsOf then e.txHash
    else none)

/-- `transferEventsForRange`: Transfer logs with
`actualFromBlock <= blockNumber <= actualToBlock`. -/
def transferEventsForRange (transfers : List TransferEvent) (fromB toB : Nat) :
    List TransferEvent :=
  transfers.filter (fun t => decide (fromB ≤ t.blockNumber ∧ t.blockNumber ≤ toB))

/-- The body of the realized-revenue loop: a mint (`from` is the zero
address) to the treasury adds its value unless its transaction hash is
present and belongs to `treasuryDepositTxs` (the `continue`). -/
def realizedMintStep (treasury : Nat) (depositTxs : List Nat) (acc : Int)
    (t : TransferEvent) : Int :=
  if t.fromAddr = some 0 ∧ t.toAddr = some treasury then
    match t.txHash with
    | some h => if h ∈ depositTxs then acc else acc + ((t.value.getD 0 : Nat) : Int)
    | none => acc + ((t.value.getD 0 : Nat) : Int)
  else acc

/-- `realizedSharesMinted`: fold of the loop above over the in-range
Transfer logs, starting from `0n`. -/
def realizedSharesMinted (treasury : Nat) (depositTxs : List Nat)
    (transfers : List TransferEvent) : Int :=
  transfers.foldl (realizedMintStep treasury depositTxs) 0

/-- The realized-revenue computation: minted shares from the in-range mints
and `realizedRevenueRaw = realizedSharesMinted * finalSharePrice / SCALE`
with `finalSharePrice = anchorSnapshots[anchorSnapshots.length - 1].sharePrice`. -/
def computeRealizedRevenue (treasury : Nat) (allEvents : List PoolEvent)
    (transfers : List TransferEvent) (fromB toB : Nat)
    (anchors : List PoolSnapshot) : Int × Int :=
  let minted := realizedSharesMinted treasury (treasuryDepositTxs treasury allEvents)
    (transferEventsForRange transfers fromB toB)
  (minted, Int.tdiv (minted * (anchors.getLastD defaultSnap).sharePrice) SHARE_PRICE_SCALE)

/-- The specification-style eligibility predicate for a counted mint: a
Transfer from the zero address to the treasury whose transaction hash (when
present) is not a positive-asset treasury-deposit transaction. -/
def countedMint (treasury : Nat) (depositTxs : List Nat) (t : TransferEvent) : Bool :=
  decide (t.fromAddr = some 0) && decide (t.toAddr = some treasury) &&
    (match t.txHash with
     | some h => ! decide (h ∈ depositTxs)
     | none => true)

theorem realizedMintStep_eq (treasury : Nat) (depositTxs : List Nat) (acc : Int)
    (t : TransferEvent) :
    realizedMintStep treasury depositTxs acc t =
      acc + (if countedMint treasury depositTxs t then ((t.value.getD 0 : Nat) : Int) else 0) := by
  unfold realizedMintStep countedMint
  by_cases h1 : t.fromAddr = some 0
  · by_cases h2 : t.toAddr = some treasury
    · cases htx : t.txHash with
      | none => simp [h1, h2, htx]
      | some hsh =>
        by_cases h3 : hsh ∈ depositTxs
        · simp [h1, h2, htx, h3]
        · simp [h1, h2, htx, h3]
    · simp [h1, h2]
  · simp [h1]

theorem realizedSharesMinted_foldl (treasury : Nat) (depositTxs : List Nat)
    (transfers : List TransferEvent) (acc : Int) :
    transfers.foldl (realizedMintStep treasury depositTxs) acc =
      acc + (((transfers.filter (countedMint treasury depositTxs)).map
        (fun t => ((t.value.getD 0 : Nat) : Int))).sum) := by
  induction transfers generalizing acc with
  | nil => simp
  | cons t rest ih =>
    rw [List.foldl_cons, ih (realizedMintStep treasury depositTxs acc t),
      realizedMintStep_eq]
    by_cases h : countedMint treasury depositTxs t
    · rw [if_pos h, List.filter_cons_of_pos (by exact h), List.map_cons, List.sum_cons]
      ring
    · rw [if_neg h, List.filter_cons_of_neg (by simpa using h)]
      ring

/-- C5 counterexample: a mint of 500 shares to the treasury (address 7)
shares transaction hash 99 with a treasury Deposit whose `assets` are 0; the
claim says such a mint contributes nothing, but the code only excludes
positive-asset treasury deposits and counts the 500 shares. -/
theorem claim_C5_counterexample :
    (⟨"Deposit", 10, some 0, none, some 0, some 500, some 7, some 99⟩ : PoolEvent).type =
        "Deposit" ∧
    (⟨"Deposit", 10, some 0, none, some 0, some 500, some 7, some 99⟩ : PoolEvent).owner =
        some 7 ∧
    (⟨"Deposit", 10, some 0, none, some 0, some 500, some 7, some 99⟩ : PoolEvent).txHash =
        (⟨10, some 1, some 0, some 7, some 500, some 99⟩ : TransferEvent).txHash ∧
    (⟨10, some 1, some 0, some 7, some 500, some 99⟩ : TransferEvent).fromAddr = some 0 ∧
    (⟨10, some 1, some 0, some 7, some 500, some 99⟩ : TransferEvent).toAddr = some 7 ∧
    (computeRealizedRevenue 7
        [⟨"Deposit", 10, some 0, none, some 0, some 500, some 7, some 99⟩]
        [⟨10, some 1, some 0, some 7, some 500, some 99⟩] 0 100
        [⟨10, 500, 500, 1000000000000, "Deposit"⟩]).1 = 500 := by
  decide

/-- C5 (amended): `realizedSharesMinted` sums the values of exactly the
in-range Transfer logs that are mints (zero-address `from`) to the treasury
and whose transaction hash, when present, is not the hash of a Deposit by
the treasury with strictly positive assets; and
`realizedRevenue = realizedSharesMinted * finalSharePrice / SCALE` with
`finalSharePrice` the share price of the last anchor snapshot. -/
theorem claim_C5_amended (treasury : Nat) (allEvents : List PoolEvent)
    (transfers : List TransferEvent) (fromB toB : Nat)
    (anchors : List PoolSnapshot) :
    (computeRealizedRevenue treasury allEvents transfers fromB toB anchors).1 =
      (((transferEventsForRange transfers fromB toB).filter
        (countedMint treasury (treasuryDepositTxs treasury allEvents))).map
        (fun t => ((t.value.getD 0 : Nat) : Int))).sum ∧
    (computeRealizedRevenue treasury allEvents transfers fromB toB anchors).2 =
      Int.tdiv
        ((computeRealizedRevenue treasury allEvents transfers fromB toB anchors).1 *
          (anchors.getLastD defaultSnap).sharePrice)
        SHARE_PRICE_SCALE := by
  constructor
  · show realizedSharesMinted treasury (treasuryDepositTxs treasury allEvents)
      (transferEventsForRange transfers fromB toB) = _
    unfold realizedSharesMinted
    rw [realizedSharesMinted_foldl]
    ring
  · rfl

/-!
Address balance ledger: `getAddressBalancesAtBlocksFromEvents` from
`pool-utils.js`. Balance maps are modelled as total functions `Nat → Int`
that are `0` outside the tracked address set (the code's `Map` holds exactly
the tracked addresses, initialised to `0n`).
-/

/-- The `(blockNumber, logIndex)` comparator applied to Transfer logs by
`sortEventsByBlockAndIndex` (the same JavaScript function is reused for
transfers). -/
def transferKeyLe (a b : TransferEvent) : Prop :=
  a.blockNumber < b.blockNumber ∨
    (a.blockNumber = b.blockNumber ∧ a.logIndex.getD 0 ≤ b.logIndex.getD 0)

instance : DecidableRel transferKeyLe := fun a b =>
  inferInstanceAs (Decidable (a.blockNumber < b.blockNumber ∨
    (a.blockNumber = b.blockNumber ∧ a.logIndex.getD 0 ≤ b.logIndex.getD 0)))

instance : IsTotal TransferEvent transferKeyLe := by
  constructor
  intro a b
  unfold transferKeyLe
  omega

instance : IsTrans TransferEvent transferKeyLe := by
  constructor
  intro a b c hab hbc
  unfold transferKeyLe at hab hbc ⊢
  omega

/-- Stable `(blockNumber, logIndex)` sort of the Transfer logs. -/
def sortTransfersByBlockAndIndex (transfers : List TransferEvent) : List TransferEvent :=
  List.insertionSort transferKeyLe transfers

/-- `BigInt(transfer.args?.value ?? 0n)`. -/
def transferValue (t : TransferEvent) : Int := ((t.value.getD 0 : Nat) : Int)

/-- The debit half of one Transfer, written pointwise: the balance of `a`
changes exactly when `a` is the (present) `from` address, is tracked, and is
not the zero address; the new value is the clamp
`current > value ? current - value : 0n`. A missing `from` (the `?? ''`
default) matches no tracked address. -/
def debitTransfer (tracked : List Nat) (bal : Nat → Int) (t : TransferEvent)
    (a : Nat) : Int :=
  if t.fromAddr = some a ∧ a ∈ tracked ∧ a ≠ 0 then
    (if transferValue t < bal a then bal a - transferValue t else 0)
  else bal a

/-- One Transfer applied to the balance map: the debit above, then credit
the (present, tracked) `to` address with the value, reading the
post-debit balance. -/
def applyTransfer (tracked : List Nat) (bal : Nat → Int) (t : TransferEvent)
    (a : Nat) : Int :=
  if t.toAddr = some a ∧ a ∈ tracked then
    debitTransfer tracked bal t a + transferValue t
  else debitTransfer tracked bal t a

/-- The checkpoint walk: for each target block consume the sorted transfers
with `blockNumber <= targetBlock` (the `while` with the persistent
`eventIndex` cursor), then snapshot the balances. -/
def balancesWalk (tracked : List Nat) :
    (Nat → Int) → List TransferEvent → List Nat → List (Nat × (Nat → Int))
  | _, _, [] => []
  | bal, ts, tb :: rest =>
    let applied := (ts.takeWhile (fun t => decide (t.blockNumber ≤ tb))).foldl
      (applyTransfer tracked) bal
    (tb, applied) ::
      balancesWalk tracked applied
        (ts.dropWhile (fun t => decide (t.blockNumber ≤ tb))) rest

/-- `Array.from(new Set(targetBlocks)).sort((a, b) => a - b)`. -/
def uniqueTargets (targetBlocks : List Nat) : List Nat :=
  List.insertionSort (fun a b => a ≤ b) targetBlocks.dedup

/-- `getAddressBalancesAtBlocksFromEvents` from `pool-utils.js`: empty
result when no addresses or no target blocks are given, otherwise the
checkpoint walk over the sorted transfers from the all-zero initial
balances. -/
def getAddressBalancesAtBlocksFromEvents (tracked : List Nat)
    (transfers : List TransferEvent) (targetBlocks : List Nat) :
    List (Nat × (Nat → Int)) :=
  if tracked.isEmpty ∨ targetBlocks.isEmpty then []
  else balancesWalk tracked (fun _ => 0) (sortTransfersByBlockAndIndex transfers)
    (uniqueTargets targetBlocks)

theorem transferValue_nonneg (t : TransferEvent) : 0 ≤ transferValue t :=
  Int.ofNat_nonneg _

theorem debitTransfer_mint (tracked : List Nat) (bal : Nat → Int)
    (t : TransferEvent) (a : Nat) (h : t.fromAddr = some 0) :
    debitTransfer tracked bal t a = bal a := by
  unfold debitTransfer
  rw [if_neg]
  intro hcon
  have : (0 : Nat) = a := by
    have := hcon.1
    rw [h] at this
    exact Option.some.inj this
  exact hcon.2.2 this.symm

theorem debitTransfer_untracked (tracked : List Nat) (bal : Nat → Int)
    (t : TransferEvent) (a : Nat) (ha : a ∉ tracked) :
    debitTransfer tracked bal t a = bal a := by
  unfold debitTransfer
  rw [if_neg]
  intro hcon
  exact ha hcon.2.1

theorem debitTransfer_nonneg (tracked : List Nat) (bal : Nat → Int)
    (t : TransferEvent) (h : ∀ a, 0 ≤ bal a) :
    ∀ a, 0 ≤ debitTransfer tracked bal t a := by
  intro a
  unfold debitTransfer
  have := h a
  split_ifs <;> omega

theorem applyTransfer_mono_of_mint (tracked : List Nat) (bal : Nat → Int)
    (t : TransferEvent) (a : Nat) (h : t.fromAddr = some 0) :
    bal a ≤ applyTransfer tracked bal t a := by
  have hval := transferValue_nonneg t
  have hmint := debitTransfer_mint tracked bal t a h
  unfold applyTransfer
  rw [hmint]
  split_ifs <;> omega

theorem applyTransfer_debit_floor (tracked : List Nat) (bal : Nat → Int)
    (t : TransferEvent) (f : Nat) (hf : t.fromAddr = some f) (hmem : f ∈ tracked)
    (hnz : f ≠ 0) (hto : t.toAddr ≠ some f) (hle : bal f ≤ transferValue t) :
    applyTransfer tracked bal t f = 0 := by
  have hdeb : debitTransfer tracked bal t f = 0 := by
    unfold debitTransfer
    rw [if_pos ⟨hf, hmem, hnz⟩, if_neg (by omega)]
  unfold applyTransfer
  rw [if_neg, hdeb]
  intro hcon
  exact hto hcon.1

theorem applyTransfer_untracked (tracked : List Nat) (bal : Nat → Int)
    (t : TransferEvent) (a : Nat) (ha : a ∉ tracked) :
    applyTransfer tracked bal t a = bal a := by
  have hdeb := debitTransfer_untracked tracked bal t a ha
  unfold applyTransfer
  rw [if_neg, hdeb]
  intro hcon
  exact ha hcon.2

theorem applyTransfer_nonneg (tracked : List Nat) (bal : Nat → Int)
    (t : TransferEvent) (h : ∀ a, 0 ≤ bal a) :
    ∀ a, 0 ≤ applyTransfer tracked bal t a := by
  intro a
  have hdeb := debitTransfer_nonneg tracked bal t h a
  have hval := transferValue_nonneg t
  unfold applyTransfer
  split_ifs <;> omega

theorem foldl_applyTransfer_untracked (tracked : List Nat) (ts : List TransferEvent) :
    ∀ (bal : Nat → Int) (a : Nat), a ∉ tracked →
      (ts.foldl (applyTransfer tracked) bal) a = bal a := by
  induction ts with
  | nil =>
    intro bal a ha
    rfl
  | cons t rest ih =>
    intro bal a ha
    rw [List.foldl_cons, ih _ a ha, applyTransfer_untracked _ _ _ _ ha]

theorem foldl_applyTransfer_nonneg (tracked : List Nat) (ts : List TransferEvent) :
    ∀ (bal : Nat → Int), (∀ a, 0 ≤ bal a) →
      ∀ a, 0 ≤ (ts.foldl (applyTransfer tracked) bal) a := by
  induction ts with
  | nil =>
    intro bal h a
    exact h a
  | cons t rest ih =>
    intro bal h a
    rw [List.foldl_cons]
    exact ih _ (applyTransfer_nonneg tracked bal t h) a

theorem takeWhile_eq_filter_of_sorted (ts : List TransferEvent)
    (hts : List.Pairwise (fun a b : TransferEvent => a.blockNumber ≤ b.blockNumber) ts)
    (tb : Nat) :
    ts.takeWhile (fun t => decide (t.blockNumber ≤ tb)) =
      ts.filter (fun t => decide (t.blockNumber ≤ tb)) := by
  induction ts with
  | nil => rfl
  | cons t rest ih =>
    by_cases h : t.blockNumber ≤ tb
    · rw [List.takeWhile_cons, if_pos (by simpa using h),
        List.filter_cons_of_pos (by simpa using h), ih hts.of_cons]
    · rw [List.takeWhile_cons, if_neg (by simpa using h),
        List.filter_cons_of_neg (by simpa using h)]
      symm
      rw [List.filter_eq_nil]
      intro a ha
      have hrel := List.rel_of_pairwise_cons hts ha
      simp only [decide_eq_true_eq]
      omega

theorem filter_le_split (ts : List TransferEvent) (tb tb2 : Nat) (htb : tb ≤ tb2) :
    ts.filter (fun t => decide (t.blockNumber ≤ tb2)) =
      ts.takeWhile (fun t => decide (t.blockNumber ≤ tb)) ++
        (ts.dropWhile (fun t => decide (t.blockNumber ≤ tb))).filter
          (fun t => decide (t.blockNumber ≤ tb2)) := by
  conv_lhs =>
    rw [← List.takeWhile_append_dropWhile (fun t => decide (t.blockNumber ≤ tb)) ts]
  rw [List.filter_append]
  congr 1
  rw [List.filter_eq_self]
  intro a ha
  have h1 := List.mem_takeWhile_imp ha
  simp only [decide_eq_true_eq] at h1 ⊢
  omega

theorem balancesWalk_spec (tracked : List Nat) (targets : List Nat) :
    ∀ (ts : List TransferEvent) (bal : Nat → Int),
    List.Pairwise (fun a b : TransferEvent => a.blockNumber ≤ b.blockNumber) ts →
    List.Pairwise (fun a b : Nat => a ≤ b) targets →
    ∀ p ∈ balancesWalk tracked bal ts targets,
      (p.2 = (ts.filter (fun t => decide (t.blockNumber ≤ p.1))).foldl
        (applyTransfer tracked) bal) ∧ p.1 ∈ targets := by
  induction targets with
  | nil =>
    intro ts bal _ _ p hp
    exact absurd hp (List.not_mem_nil p)
  | cons tb rest ih =>
    intro ts bal hts htg p hp
    simp only [balancesWalk] at hp
    rcases List.mem_cons.mp hp with h1 | h1
    · subst h1
      refine ⟨?_, List.mem_cons_self _ _⟩
      dsimp only
      rw [takeWhile_eq_filter_of_sorted ts hts tb]
    · have hsub : List.Pairwise (fun a b : TransferEvent => a.blockNumber ≤ b.blockNumber)
          (ts.dropWhile (fun t => decide (t.blockNumber ≤ tb))) :=
        List.Pairwise.sublist (List.dropWhile_sublist _) hts
      obtain ⟨hval, hmem⟩ := ih (ts.dropWhile (fun t => decide (t.blockNumber ≤ tb)))
        ((ts.takeWhile (fun t => decide (t.blockNumber ≤ tb))).foldl
          (applyTransfer tracked) bal) hsub htg.of_cons p h1
      refine ⟨?_, List.mem_cons_of_mem _ hmem⟩
      have htble : tb ≤ p.1 := List.rel_of_pairwise_cons htg hmem
      rw [filter_le_split ts tb p.1 htble, List.foldl_append]
      exact hval

/-- C9: in `getAddressBalancesAtBlocksFromEvents`, a mint (zero-address
`from`) never debits any balance, an over-large debit floors the tracked
sender at zero, untracked addresses are never credited or debited (they stay
at the initial zero), every balance in every returned checkpoint map is
non-negative, and each checkpoint map is exactly the fold of the
`(blockNumber, logIndex)`-sorted transfers with block number at most the
checkpoint block over the all-zero initial balances. -/
theorem claim_C9 (tracked : List Nat) (transfers : List TransferEvent)
    (targetBlocks : List Nat) :
    (∀ (bal : Nat → Int) (t : TransferEvent) (a : Nat), t.fromAddr = some 0 →
      bal a ≤ applyTransfer tracked bal t a) ∧
    (∀ (bal : Nat → Int) (t : TransferEvent) (f : Nat), t.fromAddr = some f →
      f ∈ tracked → f ≠ 0 → t.toAddr ≠ some f → bal f ≤ transferValue t →
      applyTransfer tracked bal t f = 0) ∧
    (∀ p ∈ getAddressBalancesAtBlocksFromEvents tracked transfers targetBlocks,
      p.2 = ((sortTransfersByBlockAndIndex transfers).filter
        (fun t => decide (t.blockNumber ≤ p.1))).foldl
          (applyTransfer tracked) (fun _ => 0)) ∧
    (∀ p ∈ getAddressBalancesAtBlocksFromEvents tracked transfers targetBlocks,
      ∀ a, a ∉ tracked → p.2 a = 0) ∧
    (∀ p ∈ getAddressBalancesAtBlocksFromEvents tracked transfers targetBlocks,
      ∀ a, 0 ≤ p.2 a) := by
  have hchar : ∀ p ∈ getAddressBalancesAtBlocksFromEvents tracked transfers targetBlocks,
      p.2 = ((sortTransfersByBlockAndIndex transfers).filter
        (fun t => decide (t.blockNumber ≤ p.1))).foldl
          (applyTransfer tracked) (fun _ => 0) := by
    intro p hp
    unfold getAddressBalancesAtBlocksFromEvents at hp
    split_ifs at hp with hcond
    · exact absurd hp (List.not_mem_nil p)
    · have hts : List.Pairwise (fun a b : TransferEvent => a.blockNumber ≤ b.blockNumber)
          (sortTransfersByBlockAndIndex transfers) := by
        refine (List.sorted_insertionSort transferKeyLe transfers).imp ?_
        intro a b hab
        unfold transferKeyLe at hab
        omega
      have htg : List.Pairwise (fun a b : Nat => a ≤ b) (uniqueTargets targetBlocks) :=
        List.sorted_insertionSort (fun a b : Nat => a ≤ b) targetBlocks.dedup
      exact (balancesWalk_spec tracked (uniqueTargets targetBlocks)
        (sortTransfersByBlockAndIndex transfers) (fun _ => 0) hts htg p hp).1
  refine ⟨applyTransfer_mono_of_mint tracked, applyTransfer_debit_floor tracked,
    hchar, ?_, ?_⟩
  · intro p hp a ha
    rw [hchar p hp, foldl_applyTransfer_untracked tracked _ _ a ha]
  · intro p hp a
    rw [hchar p hp]
    exact foldl_applyTransfer_nonneg tracked _ _ (fun x => le_rfl) a

/-- C9 witness: one mint of 5 shares to tracked address 7 yields a
checkpoint balance that the theorem certifies non-negative. -/
theorem claim_C9_witness :
    0 ≤ ((getAddressBalancesAtBlocksFromEvents [7]
      [⟨10, some 0, some 0, some 7, some 5, none⟩] [20]).get ⟨0, by decide⟩).2 7 :=
  (claim_C9 [7] [⟨10, some 0, some 0, some 7, some 5, none⟩] [20]).2.2.2.2 _
    (List.get_mem _ _ _) 7

/-!
Fee application of `calculateGearboxRevenue`:
`revenueWithInterestFee = (totalRevenue * BigInt(Math.floor((interestFee / 10000) * 10000))) / 10000n`
and likewise for the DAO share. The inner factor is computed in JavaScript
Number (IEEE-754 binary64) arithmetic, which is modelled exactly below for
the positive normal range (the basis-point values involved are all normal,
far from overflow and subnormals).
-/

/-- Fuel-driven base-2 logarithm (the fuel `n` itself always suffices);
written with structural recursion so that the kernel can evaluate it. -/
def log2Fuel : Nat → Nat → Nat
  | 0, _ => 0
  | fuel + 1, n => if 2 ≤ n then log2Fuel fuel (n / 2) + 1 else 0

/-- `Nat.log2`, kernel-evaluable. -/
def natLog2 (n : Nat) : Nat := log2Fuel n n

/-- Does `2 ^ k <= n / d` hold, for an integer `k` and a positive exact
fraction `n / d`? -/
def le2pow (k : Int) (n d : Nat) : Bool :=
  if 0 ≤ k then decide (d * 2 ^ k.toNat ≤ n) else decide (d ≤ n * 2 ^ (-k).toNat)

/-- Floor of the base-2 logarithm of the positive fraction `n / d`. -/
def floorLog2Frac (n d : Nat) : Int :=
  let k : Int := (natLog2 n : Int) - (natLog2 d : Int)
  if le2pow k n d then k else k - 1

/-- Round the non-negative fraction `n / d` to the nearest natural number,
ties to even. -/
def roundHalfEvenFrac (n d : Nat) : Nat :=
  let f := n / d
  let r := n % d
  if 2 * r < d then f
  else if d < 2 * r then f + 1
  else if f % 2 = 0 then f else f + 1

/-- IEEE-754 binary64 rounding (round to nearest, ties to even) of the
positive fraction `n / d` in the normal range: the result denotes
`mantissa * 2 ^ (exponent - 52)` with the 53-bit mantissa rounded
half-to-even. -/
def roundMantissa (n d : Nat) : Nat × Int :=
  let e := floorLog2Frac n d
  let s := 52 - e
  let nm := if 0 ≤ s then n * 2 ^ s.toNat else n
  let dm := if 0 ≤ s then d else d * 2 ^ (-s).toNat
  (roundHalfEvenFrac nm dm, e)

/-- The exact fraction denoted by a rounded double `(mantissa, exponent)`. -/
def dyadicFrac (p : Nat × Int) : Nat × Nat :=
  if 52 ≤ p.2 then (p.1 * 2 ^ (p.2 - 52).toNat, 1) else (p.1, 2 ^ (52 - p.2).toNat)

/-- `BigInt(Math.floor((bps / 10000) * 10000))` in exact binary64
semantics: divide in doubles, multiply in doubles, floor (a non-negative
result, hence `Nat`). -/
def jsFeeFactor (bps : Nat) : Nat :=
  if bps = 0 then 0
  else
    let xf := dyadicFrac (roundMantissa bps 10000)
    let yf := dyadicFrac (roundMantissa (xf.1 * 10000) xf.2)
    yf.1 / yf.2

/-- `revenueWithInterestFee = (totalRevenue * BigInt(Math.floor(interestFeeRate * 10000))) / 10000n`
(and `totalRevenueForDAO` uses the identical shape with `daoSplitRate`). -/
def revenueWithInterestFee (totalRevenue : Int) (bps : Nat) : Int :=
  Int.tdiv (totalRevenue * (jsFeeFactor bps : Int)) 10000

/-- C7 refutation: for `interestFeeBps = 3` the factor
`BigInt(Math.floor((3 / 10000) * 10000))` is 2, not 3 — `3 / 10000` rounds
below `0.0003` and the product rounds to `2.9999999999999996` — so the fee
application computes `totalRevenue * 2 / 10000` where the claim (and the
spec formula) require `totalRevenue * 3 / 10000`; e.g. a total revenue of
10000 yields 2 instead of 3. -/
theorem claim_C7_codebug :
    jsFeeFactor 3 = 2 ∧
    revenueWithInterestFee 10000 3 = 2 ∧
    Int.tdiv ((10000 : Int) * 3) 10000 = 3 := by
  refine ⟨by decide, by decide, by decide⟩

end Gearbox
